import Mathlib

/-
Verification of the Qwen2-VL vision encoder and embedding-fusion layer
(vllm/model_executor/models/qwen2_vl.py), as a shallow embedding in Lean.

Tensors over a single trailing dimension are modelled as lists; packed
batches as lists of rows or as functions from a position index; machine
integers as Nat (all quantities here are patch counts, far from overflow).
-/

/- ===================== Definitions ===================== -/

/-- Per-segment lengths fed to cumsum in Qwen2VisionTransformer.forward
(line 603): torch.repeat_interleave(grid_thw[:, 1] * grid_thw[:, 2],
grid_thw[:, 0]) repeats the per-frame patch count h * w of item i
exactly t_i times.  A grid descriptor is the triple (t, h, w). -/
def segLens (grids : List (Nat × Nat × Nat)) : List Nat :=
  grids.flatMap (fun g => List.replicate g.1 (g.2.1 * g.2.2))

/-- cu_seqlens from Qwen2VisionTransformer.forward (lines 602-608):
the cumulative sum of segLens with a zero padded in front, which is
exactly List.scanl (+) 0. -/
def cu_seqlens (grids : List (Nat × Nat × Nat)) : List Nat :=
  (segLens grids).scanl (· + ·) 0

/-- Row-position ids of one frame, from Qwen2VisionTransformer.rot_pos_emb
(lines 567-574): the dense grid hpos[r][c] = r is reshaped to
(h/m, m, w/m, m), permuted by (0, 2, 1, 3) and flattened row-major, so the
flattened sequence enumerates indices (a, b, i, j) lexicographically with
element value a * m + i. -/
def hposIdsFrame (h w m : Nat) : List Nat :=
  (List.range (h / m)).flatMap fun a =>
    (List.range (w / m)).flatMap fun _b =>
      (List.range m).flatMap fun i =>
        (List.range m).map fun _j => a * m + i

/-- Column-position ids of one frame, from rot_pos_emb (lines 568-580):
same reshape/permute/flatten applied to wpos[r][c] = c, so element
(a, b, i, j) has value b * m + j. -/
def wposIdsFrame (h w m : Nat) : List Nat :=
  (List.range (h / m)).flatMap fun _a =>
    (List.range (w / m)).flatMap fun b =>
      (List.range m).flatMap fun _i =>
        (List.range m).map fun j => b * m + j

/-- torch.stack([hpos_ids, wpos_ids], dim=-1) of rot_pos_emb line 582:
elementwise pairing of the two flattened id sequences. -/
def posIdsFrame (h w m : Nat) : List (Nat × Nat) :=
  (hposIdsFrame h w m).zip (wposIdsFrame h w m)

/-- .repeat(t, 1) of rot_pos_emb line 582: the spatial id sequence of one
frame is tiled t times along the first dimension. -/
def posIdsItem (t h w m : Nat) : List (Nat × Nat) :=
  (List.replicate t (posIdsFrame h w m)).flatten

/-- The m-by-m merge window at block position (a, b) of the dense grid, as
the spec describes it: the (row, col) pairs (a*m+i, b*m+j) enumerated
row-major.  Stated from the spec for comparison with posIdsFrame. -/
def mergeWindow (m a b : Nat) : List (Nat × Nat) :=
  (List.range m).flatMap fun i =>
    (List.range m).map fun j => (a * m + i, b * m + j)

/-- The table torch.outer(torch.arange(n), inv_freq) recomputed by
Qwen2VisionRotaryEmbedding.update_freqs_cache (lines 489-493): row i is
the elementwise product of i with the inverse-frequency vector.  The
inverse-frequency vector 1 / theta ** (arange(0, dim, 2) / dim) depends
only on the fixed constructor arguments and is recomputed identically at
every growth, so it is a fixed parameter invFreq here. -/
def freqsTable (invFreq : List ℚ) (n : Nat) : List (List ℚ) :=
  (List.range n).map fun i : ℕ => invFreq.map fun f => (i : ℚ) * f

/-- Mutable state of Qwen2VisionRotaryEmbedding (lines 479-480):
_seq_len_cached starts at 0 and _freqs_cached starts as None. -/
structure RotaryCacheState where
  seqLenCached : Nat
  freqsCached : Option (List (List ℚ))
  deriving DecidableEq

/-- The fresh state set up by the constructor (lines 479-480). -/
def freshRotaryCache : RotaryCacheState := ⟨0, none⟩

/-- update_freqs_cache (lines 482-493): if the requested length exceeds
the cached length, double it, store the doubled length and recompute the
whole table at that length; otherwise do nothing. -/
def updateFreqsCache (invFreq : List ℚ) (c : RotaryCacheState) (seqlen : Nat) :
    RotaryCacheState :=
  if c.seqLenCached < seqlen then
    ⟨2 * seqlen, some (freqsTable invFreq (2 * seqlen))⟩
  else c

/-- Qwen2VisionRotaryEmbedding.forward (lines 495-498): update the cache,
then return the first seqlen rows of the cached table.  The slice of a
missing table (None) is modelled as none: the Python would raise there. -/
def rotaryForward (invFreq : List ℚ) (c : RotaryCacheState) (seqlen : Nat) :
    RotaryCacheState × Option (List (List ℚ)) :=
  let c1 := updateFreqsCache invFreq c seqlen
  (c1, c1.freqsCached.map (List.take seqlen))

/-- States reachable by the cache: the stored table, when present, is the
full table at the stored length, and an absent table means the fresh
state of length 0. -/
def RotaryCacheWF (invFreq : List ℚ) (c : RotaryCacheState) : Prop :=
  ∀ tbl, c.freqsCached = some tbl → tbl = freqsTable invFreq c.seqLenCached

/-- rotate_half (lines 185-194) operates in one of two conventions: with
interleaved = false the row is chunked in two halves (torch.chunk(2)
puts the extra element, if any, in the first chunk) and the result is
the negated second half followed by the first half; with
interleaved = true the even-indexed and odd-indexed entries are paired
and each pair (x1, x2) becomes (-x2, x1) in place.  This is x[0::2]. -/
def evenEntries {α : Type} : List α → List α
  | [] => []
  | [a] => [a]
  | a :: _ :: rest => a :: evenEntries rest

/-- The odd-indexed entries x[1::2] of a row. -/
def oddEntries {α : Type} : List α → List α
  | [] => []
  | [_] => []
  | _ :: b :: rest => b :: oddEntries rest

/-- rotate_half (lines 185-194), on one row; see the comment above for
the two conventions. -/
def rotateHalf {α : Type} [Neg α] (interleaved : Bool) (x : List α) : List α :=
  if interleaved then
    ((evenEntries x).zip (oddEntries x)).flatMap fun p => [-p.2, p.1]
  else
    (x.drop ((x.length + 1) / 2)).map Neg.neg ++ x.take ((x.length + 1) / 2)

/-- apply_rotary_emb_torch (lines 197-220), on one row x with per-position
cosine row c and sine row s.  ro_dim = 2 * c.length; the einops repeat
tiles the cosine row to length ro_dim: side by side (c ++ c) when not
interleaved, elementwise duplicated when interleaved.  The rotated head
slice x[:ro_dim] * cos + rotate_half(x[:ro_dim]) * sin is concatenated
with the untouched tail x[ro_dim:]. -/
def applyRotaryEmbTorch {α : Type} [CommRing α] (interleaved : Bool)
    (c s x : List α) : List α :=
  let roDim := 2 * c.length
  let cFull := if interleaved then c.flatMap (fun v => [v, v]) else c ++ c
  let sFull := if interleaved then s.flatMap (fun v => [v, v]) else s ++ s
  List.zipWith (· + ·)
      (List.zipWith (· * ·) (x.take roDim) cFull)
      (List.zipWith (· * ·) (rotateHalf interleaved (x.take roDim)) sFull)
    ++ x.drop roDim

/-- apply_rotary_pos_emb_vision (lines 223-230), on one row: the cosine
and sine of the frequency row are taken elementwise and
apply_rotary_emb_torch is called with its default interleaved = False.
The cosine and sine implementations (torch kernels) are parameters. -/
def applyRotaryPosEmbVision {α : Type} [CommRing α] (cosf sinf : α → α)
    (freqs x : List α) : List α :=
  applyRotaryEmbTorch false (freqs.map cosf) (freqs.map sinf) x

/-- Elementwise sum of two rows. -/
def vecAdd {α : Type} [Add α] (x y : List α) : List α := List.zipWith (· + ·) x y

/-- Elementwise difference of two rows. -/
def vecSub {α : Type} [Sub α] (x y : List α) : List α := List.zipWith (· - ·) x y

/-- Elementwise product of two rows. -/
def vecMul {α : Type} [Mul α] (x y : List α) : List α := List.zipWith (· * ·) x y

/-- The boolean attention mask built by the TORCH_SDPA branch of
Qwen2VisionAttention.forward (lines 323-330): starting from all False,
for each s the square [cu[s], cu[s+1]) x [cu[s], cu[s+1]) is set True, so
entry (i, j) is True exactly when some segment square covers it. -/
def sdpaMask (cu : List Nat) (i j : Nat) : Bool :=
  (List.range (cu.length - 1)).any fun s =>
    decide (cu.getD s 0 ≤ i) && decide (i < cu.getD (s + 1) 0) &&
    decide (cu.getD s 0 ≤ j) && decide (j < cu.getD (s + 1) 0)

/-- F.scaled_dot_product_attention with a boolean mask (line 331), for n
query/key positions: positions with a False mask entry are excluded
before normalization (their score is sent to -infinity, hence weight 0),
and each output row is the weight-normalized combination of the value
rows of the admitted positions.  Rows are functions from the coordinate
index; expf abstracts the exponential and score the scaled dot product
of a query row with a key row, neither of which the property depends
on. -/
def maskedSDPA (expf : ℚ → ℚ) (score : (Nat → ℚ) → (Nat → ℚ) → ℚ)
    (mask : Nat → Nat → Bool) (n : Nat) (q k v : Nat → Nat → ℚ) :
    Nat → Nat → ℚ :=
  fun i c =>
    let w : Nat → ℚ := fun j => if mask i j then expf (score (q i) (k j)) else 0
    (∑ j ∈ Finset.range n, w j * v j c) / (∑ j ∈ Finset.range n, w j)

/-- The vLLM _Backend enum members (vllm.platforms, outside this file).
Modelled from the spec: besides the three supported strategies the
detector may report other kernels; their exact roster does not matter to
the construction check. -/
inductive VitAttnBackend where
  | FLASH_ATTN
  | TORCH_SDPA
  | XFORMERS
  | ROCM_FLASH
  | OPENVINO
  | FLASHINFER
  | PALLAS
  | IPEX
  deriving DecidableEq

/-- The state Qwen2VisionAttention.__init__ stores for dispatch: the
detected backend, fixed at construction (line 261). -/
structure Qwen2VisionAttentionState where
  attn_backend : VitAttnBackend
  deriving DecidableEq

/-- Qwen2VisionAttention.__init__ (lines 260-266) given the detected
backend: raise unless it is one of FLASH_ATTN, TORCH_SDPA, XFORMERS;
otherwise store it. -/
def mkQwen2VisionAttention (detected : VitAttnBackend) :
    Except String Qwen2VisionAttentionState :=
  if detected = .FLASH_ATTN ∨ detected = .TORCH_SDPA ∨ detected = .XFORMERS then
    .ok ⟨detected⟩
  else
    .error "Qwen2-VL does not support this attention backend now."

/-- The branch Qwen2VisionAttention.forward takes (lines 298-346): an
if/elif/elif chain on the stored backend with no else branch, so a state
holding any other backend would select no strategy at all. -/
def visionAttnDispatch (st : Qwen2VisionAttentionState) : Option VitAttnBackend :=
  match st.attn_backend with
  | .FLASH_ATTN => some .FLASH_ATTN
  | .TORCH_SDPA => some .TORCH_SDPA
  | .XFORMERS => some .XFORMERS
  | _ => none

/-- A tensor: its shape and its row-major flat data. -/
structure Tensor (α : Type) where
  shape : List Nat
  data : List α
  deriving DecidableEq

/-- torch.concat of a list of tensors along dimension 0: fails on an
empty list, on zero-dimensional entries, and when the entries do not all
share rank and trailing dimensions; otherwise the leading dimensions add
up and the flat data are concatenated in order. -/
def torchConcatDim0 {α : Type} (ts : List (Tensor α)) : Except String (Tensor α) :=
  match ts with
  | [] => .error "torch.cat expected a non-empty list of Tensors"
  | t :: rest =>
    if t.shape.length = 0 then
      .error "zero-dimensional tensor cannot be concatenated"
    else if rest.all fun u =>
        decide (u.shape.length = t.shape.length) && decide (u.shape.tail = t.shape.tail) then
      .ok ⟨(ts.map fun u => u.shape.headD 0).sum :: t.shape.tail,
           (ts.map Tensor.data).flatten⟩
    else
      .error "sizes of tensors must match except in dimension 0"

/-- list(mm_input) for a 3-D tensor of shape (b, n, d): its b slices of
shape (n, d), in order. -/
def slices3d {α : Type} (t : Tensor α) : List (Tensor α) :=
  match t.shape with
  | [b, n, d] =>
    (List.range b).map fun i => ⟨[n, d], (t.data.drop (i * (n * d))).take (n * d)⟩
  | _ => []

/-- A multimodal input payload as seen by
Qwen2VLForConditionalGeneration._validate_and_reshape_mm_tensor: a
tensor, a list of tensors, or a value of any other type (carrying just
its type name). -/
inductive MMInput (α : Type) where
  | tensor (t : Tensor α)
  | tlist (ts : List (Tensor α))
  | other (typeName : String)

/-- _validate_and_reshape_mm_tensor (lines 1012-1029): non-tensor
non-list inputs are rejected; a 2-D tensor is returned unchanged; a
tensor of any rank other than 2 or 3 is rejected; a 3-D tensor is
torch.concat of its slices; a list is torch.concat of its entries. -/
def validateAndReshapeMMTensor {α : Type} (mm : MMInput α) :
    Except String (Tensor α) :=
  match mm with
  | .other _ => .error "incorrect type of multimodal input"
  | .tensor t =>
    if t.shape.length = 2 then .ok t
    else if t.shape.length ≠ 3 then
      .error "input should be 2D or batched 3D tensor"
    else torchConcatDim0 (slices3d t)
  | .tlist ts => torchConcatDim0 ts

/-- The number of True entries of the placeholder mask
input_ids == placeholder_token_id (line 1139). -/
def countPlaceholders (inputIds : List Nat) (pid : Nat) : Nat :=
  (inputIds.filter fun i => decide (i = pid)).length

/-- Exact-count masked row assignment: walking the token ids and the
embedding rows together, each placeholder row is replaced by the next
feature row. -/
def maskedRowAssign {α : Type} (pid : Nat) :
    List Nat → List α → List α → List α
  | [], rows, _ => rows
  | _ :: _, [], _ => []
  | tid :: ids, r :: rows, feats =>
    if tid = pid then
      match feats with
      | f :: fs => f :: maskedRowAssign pid ids rows fs
      | [] => r :: maskedRowAssign pid ids rows []
    else
      r :: maskedRowAssign pid ids rows feats

/-- Broadcast masked row assignment: every placeholder row is replaced by
the same single feature row. -/
def broadcastRowAssign {α : Type} (pid : Nat) (f : α)
    (ids : List Nat) (rows : List α) : List α :=
  List.zipWith (fun tid r => if tid = pid then f else r) ids rows

/-- The PyTorch broadcasting fallback of a masked assignment whose value
row count differs from the mask count: a single value row broadcasts to
every selected position, anything else is a shape-mismatch error. -/
def broadcastFallback {α : Type} (inputIds : List Nat) (inputsEmbeds : List α)
    (pid : Nat) : List α → Except String (List α)
  | [f] => .ok (broadcastRowAssign pid f inputIds inputsEmbeds)
  | _ => .error "shape mismatch: value tensor cannot be broadcast to indexing result"

/-- _merge_multimodal_embeddings (lines 1131-1141): the PyTorch masked
assignment inputs_embeds[mask, :] = multimodal_embeddings succeeds when
the feature row count equals the mask count, and also when the feature
tensor has exactly one row, which then broadcasts to every selected row;
any other row count raises a shape-mismatch error. -/
def mergeMultimodalEmbeddings {α : Type} (inputIds : List Nat)
    (inputsEmbeds : List α) (mmEmbeds : List α) (pid : Nat) :
    Except String (List α) :=
  if mmEmbeds.length = countPlaceholders inputIds pid then
    .ok (maskedRowAssign pid inputIds inputsEmbeds mmEmbeds)
  else broadcastFallback inputIds inputsEmbeds pid mmEmbeds

/-- The embedding rows sitting at the placeholder positions, in sequence
order. -/
def placeholderRows {α : Type} (inputIds : List Nat) (rows : List α)
    (pid : Nat) : List α :=
  (inputIds.zip rows).filterMap fun p => if p.1 = pid then some p.2 else none

/-- A heap of embedding matrices, for the in-place view of the merge: a
tensor object is an index into the store. -/
structure EmbedsHeap (α : Type) where
  store : List (List α)

/-- _merge_multimodal_embeddings viewed with explicit references: the
masked assignment mutates the addressed matrix in place and line 1141
returns the very reference it was handed, so the store changes only at
that address and the result address is the argument address. -/
def mergeMultimodalEmbeddingsInPlace {α : Type} (h : EmbedsHeap α)
    (inputIds : List Nat) (addr : Nat) (mmEmbeds : List α) (pid : Nat) :
    Except String (EmbedsHeap α × Nat) :=
  (h.store[addr]?).elim (.error "invalid tensor reference")
    fun rows => (mergeMultimodalEmbeddings inputIds rows mmEmbeds pid).map
      fun out => (⟨h.store.set addr out⟩, addr)

/- ===================== Helper lemmas ===================== -/

lemma scanl_head {α β : Type} (f : β → α → β) (b : β) (l : List α) :
    (l.scanl f b).head? = some b := by
  cases l <;> rfl

lemma scanl_add_chain (l : List Nat) (a : Nat) :
    List.Chain' (· ≤ ·) (l.scanl (· + ·) a) := by
  induction l generalizing a with
  | nil => simp
  | cons x xs ih =>
    rw [List.scanl_cons]
    simp only [List.singleton_append]
    rw [List.chain'_cons']
    refine ⟨?_, ih (a + x)⟩
    intro y hy
    rw [scanl_head] at hy
    simp only [Option.mem_some_iff] at hy
    omega

lemma scanl_add_getLast (l : List Nat) (a : Nat) :
    (l.scanl (· + ·) a).getLast? = some (a + l.sum) := by
  induction l generalizing a with
  | nil => simp
  | cons x xs ih =>
    rw [List.scanl_cons]
    simp only [List.singleton_append]
    cases hS : xs.scanl (· + ·) (a + x) with
    | nil =>
      have := congrArg List.length hS
      simp [List.length_scanl] at this
    | cons y r =>
      rw [List.getLast?_cons_cons, ← hS, ih (a + x), List.sum_cons]
      congr 1
      omega

lemma scanl_add_diffs (l : List Nat) (a : Nat) :
    List.zipWith (fun x y => y - x) (l.scanl (· + ·) a) (l.scanl (· + ·) a).tail
      = l := by
  induction l generalizing a with
  | nil => simp
  | cons x xs ih =>
    rw [List.scanl_cons]
    simp only [List.singleton_append]
    cases hS : xs.scanl (· + ·) (a + x) with
    | nil =>
      have := congrArg List.length hS
      simp [List.length_scanl] at this
    | cons y r =>
      have hy : y = a + x := by
        have h := scanl_head (· + ·) (a + x) xs
        rw [hS] at h
        simpa using h
      subst hy
      have htail := ih (a + x)
      rw [hS] at htail
      simp only [List.tail_cons] at htail
      simp only [List.tail_cons, List.zipWith_cons_cons]
      refine congrArg₂ (· :: ·) (by omega) htail

lemma flatMap_drop_map_take_sum {γ β : Type} (l : List γ) (f : γ → List β)
    (i : Nat) :
    (l.flatMap f).drop (((l.take i).map fun x => (f x).length).sum)
      = (l.drop i).flatMap f := by
  induction i generalizing l with
  | zero => simp
  | succ n ih =>
    cases l with
    | nil => simp
    | cons x xs =>
      rw [List.take_succ_cons, List.map_cons, List.sum_cons, List.flatMap_cons,
        List.drop_append, List.drop_succ_cons, ih xs]

lemma segLens_sum (grids : List (Nat × Nat × Nat)) :
    (segLens grids).sum = (grids.map fun g => g.1 * g.2.1 * g.2.2).sum := by
  induction grids with
  | nil => rfl
  | cons g gs ih =>
    simp [segLens, List.flatMap_cons, List.sum_append, List.sum_replicate,
      smul_eq_mul, mul_assoc] at ih ⊢
    omega

/- ===================== Claim C1 ===================== -/

/-- C1, counterexample: for the single-item batch with grid descriptor
(2, 1, 1) the code produces cu_seqlens = [0, 1, 2]: the item is split
into two segments of one patch each, so no segment has the full patch
count t*h*w = 2 of the item, and the boundary sequence does not have one
segment per item (its length is 3, not 2). -/
theorem c1_cu_seqlens_per_item_counterexample :
    cu_seqlens [(2, 1, 1)] = [0, 1, 2] ∧
    (cu_seqlens [(2, 1, 1)]).length ≠ 2 ∧
    2 ∉ List.zipWith (fun a b => b - a) (cu_seqlens [(2, 1, 1)])
        (cu_seqlens [(2, 1, 1)]).tail := by
  decide

/-- C1, amended: the segment-boundary sequence is non-decreasing, starts
at 0 and ends at the total patch count sum over items of t*h*w; but the
segments are per frame, not per item: the successive differences of
cu_seqlens are exactly segLens, and item i is allocated t_i consecutive
segments each of length h_i * w_i (so the span of item i, not a single
segment, has length t_i * h_i * w_i). -/
theorem c1_cu_seqlens_structure (grids : List (Nat × Nat × Nat)) :
    (cu_seqlens grids).head? = some 0 ∧
    List.Chain' (· ≤ ·) (cu_seqlens grids) ∧
    (cu_seqlens grids).getLast?
      = some ((grids.map fun g => g.1 * g.2.1 * g.2.2).sum) ∧
    List.zipWith (fun a b => b - a) (cu_seqlens grids) (cu_seqlens grids).tail
      = segLens grids ∧
    ∀ i, i < grids.length →
      ((segLens grids).drop (((grids.take i).map fun g => g.1).sum)).take
          (grids.getD i (0, 0, 0)).1
        = List.replicate (grids.getD i (0, 0, 0)).1
            ((grids.getD i (0, 0, 0)).2.1 * (grids.getD i (0, 0, 0)).2.2) := by
  refine ⟨scanl_head _ _ _, scanl_add_chain _ _, ?_, ?_, ?_⟩
  · rw [cu_seqlens, scanl_add_getLast, Nat.zero_add, segLens_sum]
  · rw [cu_seqlens, scanl_add_diffs]
  · intro i hi
    have h5 := flatMap_drop_map_take_sum grids
      (fun g => List.replicate g.1 (g.2.1 * g.2.2)) i
    simp only [List.length_replicate] at h5
    rw [List.getD_eq_getElem _ _ hi]
    simp only [segLens]
    rw [h5, List.drop_eq_getElem_cons hi, List.flatMap_cons]
    exact List.take_left' (List.length_replicate ..)

/-- C1, witness for the amended theorem at the two-item batch
[(2, 1, 1), (1, 2, 3)], with the per-item conjunct instantiated at
item 1. -/
theorem c1_cu_seqlens_structure_witness :
    (cu_seqlens [(2, 1, 1), (1, 2, 3)]).head? = some 0 ∧
    List.Chain' (· ≤ ·) (cu_seqlens [(2, 1, 1), (1, 2, 3)]) ∧
    (cu_seqlens [(2, 1, 1), (1, 2, 3)]).getLast?
      = some (([(2, 1, 1), (1, 2, 3)].map
          fun g : Nat × Nat × Nat => g.1 * g.2.1 * g.2.2).sum) ∧
    List.zipWith (fun a b => b - a) (cu_seqlens [(2, 1, 1), (1, 2, 3)])
        (cu_seqlens [(2, 1, 1), (1, 2, 3)]).tail
      = segLens [(2, 1, 1), (1, 2, 3)] ∧
    ((segLens [(2, 1, 1), (1, 2, 3)]).drop
          ((([(2, 1, 1), (1, 2, 3)].take 1).map
            fun g : Nat × Nat × Nat => g.1).sum)).take
        ([(2, 1, 1), (1, 2, 3)].getD 1 (0, 0, 0)).1
      = List.replicate ([(2, 1, 1), (1, 2, 3)].getD 1 (0, 0, 0)).1
          (([(2, 1, 1), (1, 2, 3)].getD 1 (0, 0, 0)).2.1
            * ([(2, 1, 1), (1, 2, 3)].getD 1 (0, 0, 0)).2.2) := by
  have h := c1_cu_seqlens_structure [(2, 1, 1), (1, 2, 3)]
  exact ⟨h.1, h.2.1, h.2.2.1, h.2.2.2.1, h.2.2.2.2 1 (by decide)⟩

/- ===================== Claim C4 ===================== -/

lemma sum_map_const {α : Type} (l : List α) (c : Nat) :
    (l.map fun _ => c).sum = l.length * c := by
  induction l with
  | nil => simp
  | cons x xs ih =>
    rw [List.map_cons, List.sum_cons, ih, List.length_cons]
    ring

lemma length_flatMap_const {γ β : Type} (l : List γ) (f : γ → List β) (sz : Nat)
    (hf : ∀ x ∈ l, (f x).length = sz) : (l.flatMap f).length = l.length * sz := by
  induction l with
  | nil => simp
  | cons x xs ih =>
    rw [List.flatMap_cons, List.length_append, hf x (List.mem_cons_self ..),
      ih fun y hy => hf y (List.mem_cons_of_mem _ hy), List.length_cons]
    ring

lemma flatMap_drop_const {γ β : Type} (l : List γ) (f : γ → List β) (sz n : Nat)
    (hf : ∀ x ∈ l, (f x).length = sz) (hn : n < l.length) :
    (l.flatMap f).drop (n * sz)
      = f l[n] ++ (l.drop (n + 1)).flatMap f := by
  have h2 : ((l.take n).map fun x => (f x).length).sum = n * sz := by
    rw [List.map_eq_map_iff.mpr fun x hx => hf x (List.mem_of_mem_take hx),
      sum_map_const, List.length_take, Nat.min_eq_left hn.le]
  rw [← h2, flatMap_drop_map_take_sum, List.drop_eq_getElem_cons hn,
    List.flatMap_cons]

lemma zip_flatMap_congr {α β γ : Type} (l : List γ) (f : γ → List α)
    (g : γ → List β) (h : ∀ x ∈ l, (f x).length = (g x).length) :
    (l.flatMap f).zip (l.flatMap g) = l.flatMap fun x => (f x).zip (g x) := by
  induction l with
  | nil => rfl
  | cons x xs ih =>
    rw [List.flatMap_cons, List.flatMap_cons, List.flatMap_cons,
      List.zip_append (h x (List.mem_cons_self ..)),
      ih fun y hy => h y (List.mem_cons_of_mem _ hy)]

lemma mergeWindow_length (m a b : Nat) : (mergeWindow m a b).length = m * m := by
  rw [mergeWindow, length_flatMap_const _ _ m (by simp), List.length_range]

lemma posIdsFrame_eq (h w m : Nat) :
    posIdsFrame h w m
      = (List.range (h / m)).flatMap fun a =>
          (List.range (w / m)).flatMap fun b => mergeWindow m a b := by
  unfold posIdsFrame hposIdsFrame wposIdsFrame mergeWindow
  rw [zip_flatMap_congr _ _ _ (by
    intro a _
    rw [length_flatMap_const _ _ (m * m) (by
        intro b _
        rw [length_flatMap_const _ _ m (by simp), List.length_range]),
      length_flatMap_const _ _ (m * m) (by
        intro b _
        rw [length_flatMap_const _ _ m (by simp), List.length_range])])]
  refine congrArg _ (funext fun a => ?_)
  rw [zip_flatMap_congr _ _ _ (by
    intro b _
    rw [length_flatMap_const _ _ m (by simp), List.length_range,
      length_flatMap_const _ _ m (by simp), List.length_range])]
  refine congrArg _ (funext fun b => ?_)
  rw [zip_flatMap_congr _ _ _ (by simp)]
  refine congrArg _ (funext fun i => ?_)
  exact List.zip_map' _ _ _

lemma frameInner_length (w m a : Nat) :
    ((List.range (w / m)).flatMap fun b => mergeWindow m a b).length
      = w / m * (m * m) := by
  rw [length_flatMap_const _ _ (m * m) fun b _ => mergeWindow_length m a b,
    List.length_range]

lemma posIdsFrame_length (h w m : Nat) (hh : m ∣ h) (hw : m ∣ w) :
    (posIdsFrame h w m).length = h * w := by
  rw [posIdsFrame_eq,
    length_flatMap_const _ _ (w / m * (m * m)) fun a _ => frameInner_length w m a,
    List.length_range]
  rcases Nat.eq_zero_or_pos m with hm0 | hm
  · subst hm0
    have : h = 0 := Nat.eq_zero_of_zero_dvd hh
    simp [this]
  · have e1 : h / m * (w / m * (m * m)) = h / m * m * (w / m * m) := by ring
    rw [e1, Nat.div_mul_cancel hh, Nat.div_mul_cancel hw]

lemma replicate_flatten_chunk {α : Type} (L : List α) (t f : Nat) (hf : f < t) :
    (((List.replicate t L).flatten).drop (f * L.length)).take L.length = L := by
  induction t generalizing f with
  | zero => omega
  | succ n ih =>
    rw [List.replicate_succ, List.flatten_cons]
    cases f with
    | zero =>
      rw [Nat.zero_mul, List.drop_zero]
      exact List.take_left' rfl
    | succ f' =>
      have e : (f' + 1) * L.length = L.length + f' * L.length := by ring
      rw [e, List.drop_append]
      exact ih f' (by omega)

/-- C4: for a grid descriptor (t, h, w) with h and w divisible by the
merge size m, the position-id sequence has exactly t*h*w pairs, the
frame block of h*w ids is repeated once per temporal frame, and inside a
frame the consecutive block of m*m pairs at window position (a, b) is
exactly the m-by-m merge window of the dense grid. -/
theorem c4_spatial_pos_ids (t h w m : Nat) (hh : m ∣ h) (hw : m ∣ w) :
    (posIdsItem t h w m).length = t * h * w ∧
    (∀ f, f < t →
      ((posIdsItem t h w m).drop (f * (h * w))).take (h * w)
        = posIdsFrame h w m) ∧
    (∀ a b, a < h / m → b < w / m →
      ((posIdsFrame h w m).drop ((a * (w / m) + b) * (m * m))).take (m * m)
        = mergeWindow m a b) := by
  have hfl := posIdsFrame_length h w m hh hw
  refine ⟨?_, ?_, ?_⟩
  · rw [posIdsItem, List.length_flatten, List.map_replicate, hfl,
      List.sum_replicate, smul_eq_mul]
    ring
  · intro f hf
    rw [posIdsItem, ← hfl]
    exact replicate_flatten_chunk _ t f hf
  · intro a b ha hb
    have ha' : a < (List.range (h / m)).length := by simpa using ha
    have hb' : b < (List.range (w / m)).length := by simpa using hb
    have e : (a * (w / m) + b) * (m * m)
        = a * (w / m * (m * m)) + b * (m * m) := by ring
    rw [posIdsFrame_eq, e, ← List.drop_drop,
      flatMap_drop_const _ _ (w / m * (m * m)) a
        (fun x _ => frameInner_length w m x) ha',
      List.getElem_range,
      List.drop_append_of_le_length (by
        rw [frameInner_length w m a]
        have : b + 1 ≤ w / m := hb
        calc b * (m * m) ≤ b * (m * m) + (m * m) := by omega
          _ = (b + 1) * (m * m) := by ring
          _ ≤ w / m * (m * m) := Nat.mul_le_mul_right _ hb),
      flatMap_drop_const _ _ (m * m) b
        (fun x _ => mergeWindow_length m a x) hb',
      List.getElem_range, List.append_assoc]
    exact List.take_left' (mergeWindow_length m a b)

/-- C4, witness at grid (2, 4, 6) with merge size 2, frame 1 and window
(1, 2). -/
theorem c4_spatial_pos_ids_witness :
    (posIdsItem 2 4 6 2).length = 2 * 4 * 6 ∧
    ((posIdsItem 2 4 6 2).drop (1 * (4 * 6))).take (4 * 6) = posIdsFrame 4 6 2 ∧
    ((posIdsFrame 4 6 2).drop ((1 * (6 / 2) + 2) * (2 * 2))).take (2 * 2)
      = mergeWindow 2 1 2 := by
  have h := c4_spatial_pos_ids 2 4 6 2 (by decide) (by decide)
  exact ⟨h.1, h.2.1 1 (by decide), h.2.2 1 2 (by decide) (by decide)⟩

/- ===================== Claim C5 ===================== -/

lemma freqsTable_take (invFreq : List ℚ) (n m : Nat) (h : m ≤ n) :
    (freqsTable invFreq n).take m = freqsTable invFreq m := by
  rw [freqsTable, freqsTable, ← List.map_take, List.take_range,
    Nat.min_eq_left h]

lemma updateFreqsCache_wf (invFreq : List ℚ) (c : RotaryCacheState) (s : Nat)
    (hwf : RotaryCacheWF invFreq c) :
    RotaryCacheWF invFreq (updateFreqsCache invFreq c s) := by
  rw [updateFreqsCache]
  split
  · intro tbl htbl
    simpa using htbl.symm
  · exact hwf

lemma updateFreqsCache_cap_le (invFreq : List ℚ) (c : RotaryCacheState)
    (s : Nat) :
    c.seqLenCached ≤ (updateFreqsCache invFreq c s).seqLenCached := by
  rw [updateFreqsCache]
  split
  · simp only [RotaryCacheState.mk.injEq]
    omega
  · omega

lemma updateFreqsCache_req_le (invFreq : List ℚ) (c : RotaryCacheState)
    (s : Nat) :
    s ≤ (updateFreqsCache invFreq c s).seqLenCached := by
  rw [updateFreqsCache]
  split
  · simp only [RotaryCacheState.mk.injEq]
    omega
  · omega

lemma updateFreqsCache_noop (invFreq : List ℚ) (c : RotaryCacheState)
    (s : Nat) (h : s ≤ c.seqLenCached) : updateFreqsCache invFreq c s = c := by
  rw [updateFreqsCache, if_neg (by omega)]

lemma rotary_rows_eq (invFreq : List ℚ) (c : RotaryCacheState) (M : Nat)
    (rows : List (List ℚ)) (hwf : RotaryCacheWF invFreq c)
    (h : (rotaryForward invFreq c M).2 = some rows) :
    rows = freqsTable invFreq M := by
  have hwf1 := updateFreqsCache_wf invFreq c M hwf
  have hreq := updateFreqsCache_req_le invFreq c M
  rw [rotaryForward] at h
  simp only at h
  cases hf : (updateFreqsCache invFreq c M).freqsCached with
  | none => rw [hf] at h; simp at h
  | some tbl =>
    rw [hf] at h
    simp only [Option.map_some', Option.some_inj] at h
    have htbl := hwf1 tbl hf
    rw [← h, htbl, freqsTable_take _ _ _ hreq]

/-- C5: a lookup of length N leaves the cache capacity at least N; a
subsequent lookup of any M at most N does not change the cache at all and
returns exactly the rows the lookup of length M would have returned on
the earlier state (whenever that lookup returned rows at all); and no
sequence of lookups ever decreases the capacity. -/
theorem c5_rotary_cache_monotone (invFreq : List ℚ) (c : RotaryCacheState)
    (N M : Nat) (hwf : RotaryCacheWF invFreq c) (hMN : M ≤ N) :
    N ≤ ((rotaryForward invFreq c N).1).seqLenCached ∧
    (rotaryForward invFreq ((rotaryForward invFreq c N).1) M).1
      = (rotaryForward invFreq c N).1 ∧
    (∀ rows, (rotaryForward invFreq c M).2 = some rows →
      (rotaryForward invFreq ((rotaryForward invFreq c N).1) M).2
        = some rows) ∧
    (∀ ls : List Nat, c.seqLenCached ≤
      (ls.foldl (fun st l => (rotaryForward invFreq st l).1) c).seqLenCached) := by
  have hreq := updateFreqsCache_req_le invFreq c N
  have hc1 : (rotaryForward invFreq c N).1 = updateFreqsCache invFreq c N := rfl
  refine ⟨hreq, ?_, ?_, ?_⟩
  · rw [hc1]
    show updateFreqsCache invFreq (updateFreqsCache invFreq c N) M
      = updateFreqsCache invFreq c N
    exact updateFreqsCache_noop invFreq _ M (by omega)
  · intro rows hrows
    have hrfreq := rotary_rows_eq invFreq c M rows hwf hrows
    rw [hc1]
    show (updateFreqsCache invFreq (updateFreqsCache invFreq c N)
        M).freqsCached.map (List.take M) = some rows
    rw [updateFreqsCache_noop invFreq _ M (by omega)]
    by_cases hgrow : c.seqLenCached < N
    · rw [updateFreqsCache, if_pos hgrow]
      simp only [Option.map_some', Option.some_inj]
      rw [freqsTable_take invFreq _ _ (by omega)]
      exact hrfreq.symm
    · rw [updateFreqsCache_noop invFreq _ N (by omega)]
      have hM : (rotaryForward invFreq c M).2
          = c.freqsCached.map (List.take M) := by
        show (updateFreqsCache invFreq c M).freqsCached.map (List.take M)
          = c.freqsCached.map (List.take M)
        rw [updateFreqsCache_noop invFreq _ M (by omega)]
      rw [← hM]
      exact hrows
  · intro ls
    clear hreq hc1 hwf hMN
    induction ls generalizing c with
    | nil => exact Nat.le_refl _
    | cons l ls ih =>
      rw [List.foldl_cons]
      exact Nat.le_trans (updateFreqsCache_cap_le invFreq c l)
        (ih (rotaryForward invFreq c l).1)

/-- C5, witness: from the fresh cache, a lookup of length 3 followed by a
lookup of length 2. -/
theorem c5_rotary_cache_monotone_witness :
    3 ≤ ((rotaryForward [1] freshRotaryCache 3).1).seqLenCached ∧
    (rotaryForward [1] ((rotaryForward [1] freshRotaryCache 3).1) 2).1
      = (rotaryForward [1] freshRotaryCache 3).1 ∧
    (∀ rows, (rotaryForward [1] freshRotaryCache 2).2 = some rows →
      (rotaryForward [1] ((rotaryForward [1] freshRotaryCache 3).1) 2).2
        = some rows) ∧
    (∀ ls : List Nat, freshRotaryCache.seqLenCached ≤
      (ls.foldl (fun st l => (rotaryForward [1] st l).1)
        freshRotaryCache).seqLenCached) :=
  c5_rotary_cache_monotone [1] freshRotaryCache 3 2
    (fun tbl h => nomatch h) (by omega)

/- ===================== Claims C6 and C7 ===================== -/

lemma rotateHalf_false_halves {α : Type} [Neg α] (x : List α) (d : Nat)
    (h : x.length = 2 * d) :
    rotateHalf false x = (x.drop d).map Neg.neg ++ x.take d := by
  have e : (x.length + 1) / 2 = d := by omega
  rw [rotateHalf, if_neg (by simp), e]

lemma vecAdd_mul_neg_left {α : Type} [CommRing α] (a c b s : List α) :
    vecAdd (vecMul a c) (vecMul (b.map Neg.neg) s)
      = vecSub (vecMul a c) (vecMul b s) := by
  apply List.ext_getElem
  · simp [vecAdd, vecSub, vecMul]
  · intro i h1 h2
    simp only [vecAdd, vecSub, vecMul, List.getElem_zipWith, List.getElem_map]
    ring

lemma applyRotary_false_append {α : Type} [CommRing α] (c s a b : List α)
    (ha : a.length = c.length) (hb : b.length = c.length)
    (hs : s.length = c.length) :
    applyRotaryEmbTorch false c s (a ++ b)
      = vecSub (vecMul a c) (vecMul b s)
        ++ vecAdd (vecMul b c) (vecMul a s) := by
  have hlen : (a ++ b).length = 2 * c.length := by
    rw [List.length_append, ha, hb]; omega
  rw [applyRotaryEmbTorch]
  simp only [Bool.false_eq_true, if_false]
  rw [List.take_of_length_le (by omega), List.drop_eq_nil_of_le (by omega),
    List.append_nil, rotateHalf_false_halves _ c.length hlen,
    List.drop_left' ha, List.take_left' ha,
    List.zipWith_append _ _ _ _ _ (by omega),
    List.zipWith_append _ _ _ _ _ (by simp; omega),
    List.zipWith_append _ _ _ _ _ (by simp [vecMul]; omega)]
  rw [show List.zipWith (· * ·) a c = vecMul a c from rfl,
    show List.zipWith (· * ·) b c = vecMul b c from rfl,
    show List.zipWith (· * ·) (b.map Neg.neg) s = vecMul (b.map Neg.neg) s from rfl,
    show List.zipWith (· * ·) a s = vecMul a s from rfl,
    show ∀ u v : List α, List.zipWith (· + ·) u v = vecAdd u v from fun _ _ => rfl,
    vecAdd_mul_neg_left]
  rfl

lemma rotary_point_fst (t a b : ℝ) :
    (a * Real.cos t - b * Real.sin t) * Real.cos t
      - (b * Real.cos t + a * Real.sin t) * -Real.sin t = a := by
  have h := Real.sin_sq_add_cos_sq t
  linear_combination a * h

lemma rotary_point_snd (t a b : ℝ) :
    (b * Real.cos t + a * Real.sin t) * Real.cos t
      + (a * Real.cos t - b * Real.sin t) * -Real.sin t = b := by
  have h := Real.sin_sq_add_cos_sq t
  linear_combination b * h

/-- C6: applying the vision rotary transform (rotate-half combined with
the elementwise cosine and sine of the angle row) with angles freqs and
then again with angles -freqs returns the original row exactly, in real
arithmetic. -/
theorem c6_rotary_roundtrip (freqs x : List ℝ)
    (hx : x.length = 2 * freqs.length) :
    applyRotaryPosEmbVision Real.cos Real.sin (freqs.map Neg.neg)
      (applyRotaryPosEmbVision Real.cos Real.sin freqs x) = x := by
  have ha : (x.take freqs.length).length = freqs.length := by
    rw [List.length_take]; omega
  have hb : (x.drop freqs.length).length = freqs.length := by
    rw [List.length_drop]; omega
  have hc : (freqs.map Real.cos).length = freqs.length := List.length_map ..
  have hs : (freqs.map Real.sin).length = freqs.length := List.length_map ..
  have hc' : (freqs.map Neg.neg).map Real.cos = freqs.map Real.cos := by
    rw [List.map_map]
    exact List.map_eq_map_iff.mpr fun t _ => by
      simp [Function.comp, Real.cos_neg]
  have hs' : (freqs.map Neg.neg).map Real.sin
      = (freqs.map Real.sin).map Neg.neg := by
    rw [List.map_map, List.map_map]
    exact List.map_eq_map_iff.mpr fun t _ => by
      simp [Function.comp, Real.sin_neg]
  conv_lhs =>
    rw [applyRotaryPosEmbVision, applyRotaryPosEmbVision, hc', hs',
      ← List.take_append_drop freqs.length x,
      applyRotary_false_append _ _ _ _ (by omega) (by omega) (by omega)]
  rw [applyRotary_false_append _ _ _ _
      (by simp [vecSub, vecMul]; omega) (by simp [vecAdd, vecMul]; omega)
      (by simp)]
  conv_rhs => rw [← List.take_append_drop freqs.length x]
  refine congrArg₂ (· ++ ·) ?_ ?_
  · apply List.ext_getElem
    · simp [vecSub, vecAdd, vecMul]
      omega
    · intro i h1 h2
      simp only [vecSub, vecAdd, vecMul, List.getElem_zipWith,
        List.getElem_map, List.getElem_take, List.getElem_drop]
      exact rotary_point_fst _ _ _
  · apply List.ext_getElem
    · simp [vecSub, vecAdd, vecMul]
      omega
    · intro i h1 h2
      simp only [vecSub, vecAdd, vecMul, List.getElem_zipWith,
        List.getElem_map, List.getElem_take, List.getElem_drop]
      exact rotary_point_snd _ _ _

/-- C6, witness at freqs = [0] and x = [1, 2]. -/
theorem c6_rotary_roundtrip_witness :
    applyRotaryPosEmbVision Real.cos Real.sin ([(0 : ℝ)].map Neg.neg)
      (applyRotaryPosEmbVision Real.cos Real.sin [(0 : ℝ)] [1, 2]) = [1, 2] :=
  c6_rotary_roundtrip [0] [1, 2] rfl

/-- C7: the code uses the half-split rotate convention, not the
interleaved one: with interleaved = false a row of even length 2d maps
to the negated upper half followed by the lower half; the two
conventions genuinely differ (already on [1, 2, 3, 4]); and the vision
path apply_rotary_pos_emb_vision always calls apply_rotary_emb_torch
with interleaved = false. -/
theorem c7_rotate_half_convention :
    (∀ (x : List ℚ) (d : Nat), x.length = 2 * d →
      rotateHalf false x = (x.drop d).map Neg.neg ++ x.take d) ∧
    rotateHalf false ([1, 2, 3, 4] : List ℚ)
      ≠ rotateHalf true ([1, 2, 3, 4] : List ℚ) ∧
    ∀ (cosf sinf : ℚ → ℚ) (freqs x : List ℚ),
      applyRotaryPosEmbVision cosf sinf freqs x
        = applyRotaryEmbTorch false (freqs.map cosf) (freqs.map sinf) x := by
  refine ⟨fun x d h => rotateHalf_false_halves x d h, ?_, fun _ _ _ _ => rfl⟩
  decide

/-- C7, witness: the half-split characterization at [1, 2, 3, 4]. -/
theorem c7_rotate_half_convention_witness :
    rotateHalf false ([1, 2, 3, 4] : List ℚ)
      = (([1, 2, 3, 4] : List ℚ).drop 2).map Neg.neg
        ++ ([1, 2, 3, 4] : List ℚ).take 2 :=
  c7_rotate_half_convention.1 [1, 2, 3, 4] 2 rfl

/- ===================== Claim C3 ===================== -/

lemma sdpaMask_two_segments (n1 n2 i j : Nat) :
    sdpaMask [0, n1, n1 + n2] i j = true ↔
      ((i < n1 ∧ j < n1) ∨
        (n1 ≤ i ∧ i < n1 + n2 ∧ n1 ≤ j ∧ j < n1 + n2)) := by
  show (List.range (([0, n1, n1 + n2] : List Nat).length - 1)).any _ = true ↔ _
  simp only [List.length_cons, List.length_nil]
  rw [show (0 + 1 + 1 + 1 - 1 : Nat) = 2 from rfl,
    show List.range 2 = [0, 1] from rfl]
  simp only [List.any_cons, List.any_nil, Bool.or_eq_true, Bool.and_eq_true,
    decide_eq_true_eq, List.getD_cons_zero, List.getD_cons_succ,
    Bool.false_eq_true, or_false]
  omega

/-- C3: for segment boundaries [0, n1, n1 + n2], the boolean mask built
by the TORCH_SDPA branch admits a pair (i, j) exactly when i and j lie
in the same segment (cross-segment pairs are excluded before the
normalization, which in maskedSDPA ranges only over admitted positions);
consequently two runs whose query, key and value rows agree on segment 2
(positions n1 to n1+n2-1), that is, differ at most inside segment 1,
produce identical attention outputs at every position of segment 2. -/
theorem c3_attention_segment_isolation (expf : ℚ → ℚ)
    (score : (Nat → ℚ) → (Nat → ℚ) → ℚ) (n1 n2 : Nat)
    (q k v q' k' v' : Nat → Nat → ℚ)
    (hq : ∀ p, n1 ≤ p → p < n1 + n2 → q p = q' p)
    (hk : ∀ p, n1 ≤ p → p < n1 + n2 → k p = k' p)
    (hv : ∀ p, n1 ≤ p → p < n1 + n2 → v p = v' p) :
    (∀ i j, sdpaMask [0, n1, n1 + n2] i j = true ↔
      ((i < n1 ∧ j < n1) ∨
        (n1 ≤ i ∧ i < n1 + n2 ∧ n1 ≤ j ∧ j < n1 + n2))) ∧
    ∀ p c, n1 ≤ p → p < n1 + n2 →
      maskedSDPA expf score (sdpaMask [0, n1, n1 + n2]) (n1 + n2) q k v p c
        = maskedSDPA expf score (sdpaMask [0, n1, n1 + n2]) (n1 + n2)
            q' k' v' p c := by
  refine ⟨fun i j => sdpaMask_two_segments n1 n2 i j, ?_⟩
  intro p c hp1 hp2
  have hseg : ∀ j, sdpaMask [0, n1, n1 + n2] p j = true →
      n1 ≤ j ∧ j < n1 + n2 := by
    intro j hm
    rcases (sdpaMask_two_segments n1 n2 p j).mp hm with ⟨h1, _⟩ | ⟨_, _, h3, h4⟩
    · omega
    · exact ⟨h3, h4⟩
  have hw : ∀ j ∈ Finset.range (n1 + n2),
      (if sdpaMask [0, n1, n1 + n2] p j then expf (score (q p) (k j)) else 0)
        = (if sdpaMask [0, n1, n1 + n2] p j then
            expf (score (q' p) (k' j)) else 0) := by
    intro j _
    by_cases hm : sdpaMask [0, n1, n1 + n2] p j = true
    · rw [if_pos hm, if_pos hm, hq p hp1 hp2,
        hk j (hseg j hm).1 (hseg j hm).2]
    · rw [if_neg hm, if_neg hm]
  have hwv : ∀ j ∈ Finset.range (n1 + n2),
      (if sdpaMask [0, n1, n1 + n2] p j then
          expf (score (q p) (k j)) else 0) * v j c
        = (if sdpaMask [0, n1, n1 + n2] p j then
            expf (score (q' p) (k' j)) else 0) * v' j c := by
    intro j hj
    by_cases hm : sdpaMask [0, n1, n1 + n2] p j = true
    · rw [hw j hj, hv j (hseg j hm).1 (hseg j hm).2]
    · rw [if_neg hm, if_neg hm, zero_mul, zero_mul]
  rw [maskedSDPA, maskedSDPA]
  simp only
  rw [Finset.sum_congr rfl hwv, Finset.sum_congr rfl hw]

/-- C3, witness at n1 = n2 = 1 with concrete score and weight functions
and identical inputs, the conclusion taken at position 1. -/
theorem c3_attention_segment_isolation_witness :
    (∀ i j, sdpaMask [0, 1, 1 + 1] i j = true ↔
      ((i < 1 ∧ j < 1) ∨ (1 ≤ i ∧ i < 1 + 1 ∧ 1 ≤ j ∧ j < 1 + 1))) ∧
    ∀ p c, 1 ≤ p → p < 1 + 1 →
      maskedSDPA (fun t => 1 + t * t) (fun qr kr => qr 0 * kr 0)
          (sdpaMask [0, 1, 1 + 1]) (1 + 1)
          (fun _ _ => 0) (fun _ _ => 0) (fun _ _ => 0) p c
        = maskedSDPA (fun t => 1 + t * t) (fun qr kr => qr 0 * kr 0)
            (sdpaMask [0, 1, 1 + 1]) (1 + 1)
            (fun _ _ => 0) (fun _ _ => 0) (fun _ _ => 0) p c :=
  c3_attention_segment_isolation (fun t => 1 + t * t)
    (fun qr kr => qr 0 * kr 0) 1 1
    (fun _ _ => 0) (fun _ _ => 0) (fun _ _ => 0)
    (fun _ _ => 0) (fun _ _ => 0) (fun _ _ => 0)
    (fun _ _ _ => rfl) (fun _ _ _ => rfl) (fun _ _ _ => rfl)

/- ===================== Claim C8 ===================== -/

/-- C8: constructing the vision attention component succeeds, storing the
detected backend, exactly when that backend is one of the three
supported strategies; any other detected backend yields the runtime
error and no component; and on every constructed component the forward
dispatch selects precisely the branch of the backend stored at
construction (the pure component is never mutated, so the selection can
never be reevaluated differently per call). -/
theorem c8_attention_backend_selection :
    (∀ b : VitAttnBackend,
      (∃ st, mkQwen2VisionAttention b = .ok st ∧ st.attn_backend = b) ↔
        (b = .FLASH_ATTN ∨ b = .TORCH_SDPA ∨ b = .XFORMERS)) ∧
    (∀ b : VitAttnBackend,
      ¬(b = .FLASH_ATTN ∨ b = .TORCH_SDPA ∨ b = .XFORMERS) →
        mkQwen2VisionAttention b
          = .error "Qwen2-VL does not support this attention backend now.") ∧
    ∀ b st, mkQwen2VisionAttention b = .ok st →
      st.attn_backend = b ∧ visionAttnDispatch st = some b := by
  refine ⟨?_, ?_, ?_⟩
  · intro b
    constructor
    · rintro ⟨st, hok, _⟩
      by_contra hns
      rw [mkQwen2VisionAttention, if_neg hns] at hok
      exact absurd hok (by simp)
    · intro hs
      exact ⟨⟨b⟩, by rw [mkQwen2VisionAttention, if_pos hs], rfl⟩
  · intro b hns
    rw [mkQwen2VisionAttention, if_neg hns]
  · intro b st hok
    by_cases hs : b = .FLASH_ATTN ∨ b = .TORCH_SDPA ∨ b = .XFORMERS
    · rw [mkQwen2VisionAttention, if_pos hs] at hok
      have hst : (⟨b⟩ : Qwen2VisionAttentionState) = st := by
        injection hok
      rw [← hst]
      rcases hs with rfl | rfl | rfl <;> exact ⟨rfl, rfl⟩
    · rw [mkQwen2VisionAttention, if_neg hs] at hok
      exact absurd hok (by simp)

/-- C8, witness: TORCH_SDPA constructs and dispatches to itself;
OPENVINO is rejected with the runtime error. -/
theorem c8_attention_backend_selection_witness :
    (∃ st, mkQwen2VisionAttention .TORCH_SDPA = .ok st ∧
      st.attn_backend = .TORCH_SDPA) ∧
    mkQwen2VisionAttention .OPENVINO
      = .error "Qwen2-VL does not support this attention backend now." ∧
    ((⟨.TORCH_SDPA⟩ : Qwen2VisionAttentionState).attn_backend = .TORCH_SDPA ∧
      visionAttnDispatch ⟨.TORCH_SDPA⟩ = some .TORCH_SDPA) :=
  ⟨(c8_attention_backend_selection.1 .TORCH_SDPA).mpr (Or.inr (Or.inl rfl)),
   c8_attention_backend_selection.2.1 .OPENVINO (by simp),
   c8_attention_backend_selection.2.2 .TORCH_SDPA ⟨.TORCH_SDPA⟩ rfl⟩

/- ===================== Claim C9 ===================== -/

lemma flatten_chunks {α : Type} (L : List α) (k sz : Nat)
    (h : L.length = k * sz) :
    ((List.range k).map fun i => (L.drop (i * sz)).take sz).flatten = L := by
  induction k generalizing L with
  | zero =>
    simp only [Nat.zero_mul] at h
    simp [List.length_eq_zero.mp h]
  | succ n ih =>
    rw [List.range_succ_eq_map, List.map_cons, List.map_map,
      List.flatten_cons, Nat.zero_mul, List.drop_zero]
    have he : ((List.range n).map
          ((fun i => (L.drop (i * sz)).take sz) ∘ Nat.succ))
        = (List.range n).map fun i => ((L.drop sz).drop (i * sz)).take sz := by
      refine List.map_eq_map_iff.mpr fun i _ => ?_
      simp only [Function.comp]
      rw [List.drop_drop]
      congr 2
      rw [Nat.succ_eq_add_one]
      ring
    rw [he, ih (L.drop sz) (by rw [List.length_drop, h]; ring_nf; omega),
      List.take_append_drop]

lemma torchConcatDim0_uniform {α : Type} (ts : List (Tensor α)) (n : Nat)
    (tail : List Nat) (hsh : ∀ t ∈ ts, t.shape = n :: tail) :
    ts ≠ [] →
    torchConcatDim0 ts
      = .ok ⟨ts.length * n :: tail, (ts.map Tensor.data).flatten⟩ := by
  intro hne
  match ts with
  | [] => exact absurd rfl hne
  | t :: rest =>
    have ht := hsh t (List.mem_cons_self ..)
    have hall : rest.all (fun u =>
        decide (u.shape.length = t.shape.length)
          && decide (u.shape.tail = t.shape.tail)) = true := by
      rw [List.all_eq_true]
      intro u hu
      rw [hsh u (List.mem_cons_of_mem _ hu), ht]
      simp
    rw [torchConcatDim0]
    rw [if_neg (by rw [ht]; simp), if_pos hall]
    refine congrArg _ ?_
    have hheads : (t :: rest).map (fun u => u.shape.headD 0)
        = List.replicate (t :: rest).length n := by
      rw [List.eq_replicate_iff]
      refine ⟨by simp, ?_⟩
      intro x hx
      rw [List.mem_map] at hx
      obtain ⟨u, hu, hux⟩ := hx
      rw [hsh u hu] at hux
      simpa using hux.symm
    rw [hheads, List.sum_replicate, smul_eq_mul, ht]
    simp

lemma validate_3d_ok {α : Type} (b n d : Nat) (data : List α)
    (hlen : data.length = b * (n * d)) (hb : 0 < b) :
    validateAndReshapeMMTensor (.tensor ⟨[b, n, d], data⟩)
      = .ok ⟨[b * n, d], data⟩ := by
  rw [validateAndReshapeMMTensor]
  simp only [List.length_cons, List.length_nil]
  rw [if_neg (by omega), if_neg (by omega)]
  have hsl : slices3d (⟨[b, n, d], data⟩ : Tensor α)
      = (List.range b).map fun i =>
          ⟨[n, d], (data.drop (i * (n * d))).take (n * d)⟩ := rfl
  rw [hsl, torchConcatDim0_uniform _ n [d]
      (by
        intro t ht
        rw [List.mem_map] at ht
        obtain ⟨i, _, rfl⟩ := ht
        rfl)
      (by
        simp only [ne_eq, List.map_eq_nil_iff, List.range_eq_nil]
        omega)]
  rw [List.map_map]
  have hdata : ((List.range b).map
      (Tensor.data ∘ fun i =>
        (⟨[n, d], (data.drop (i * (n * d))).take (n * d)⟩ : Tensor α))).flatten
      = data := flatten_chunks data b (n * d) hlen
  rw [hdata]
  simp

/-- C9, counterexample: a list input whose single entry is a 3-D tensor
is concatenated and returned unchanged, so the normalizer returns a 3-D
tensor, not a 2-D one, and raises no error; the claim that the result is
always 2-D (with errors exactly on non-tensor/non-list or bad tensor
rank) is false for list payloads. -/
theorem c9_validate_reshape_counterexample :
    validateAndReshapeMMTensor (.tlist [⟨[1, 2, 2], ([5, 6, 7, 8] : List ℚ)⟩])
      = .ok ⟨[1, 2, 2], [5, 6, 7, 8]⟩ ∧
    (Tensor.mk [1, 2, 2] ([5, 6, 7, 8] : List ℚ)).shape.length ≠ 2 :=
  ⟨rfl, by decide⟩

/-- C9, amended: for tensor payloads the normalizer behaves as claimed:
a 2-D tensor is returned unchanged, a 3-D tensor of shape (b, n, d) with
b positive is flattened to (b*n, d) with the same row-major data, any
other tensor rank and any non-tensor non-list payload is a descriptive
fatal error; but a list payload is simply torch.concat of its entries
along dimension 0, which returns the common rank of the entries (2-D only when
the entries are 2-D) and fails on an empty list or mismatched shapes. -/
theorem c9_validate_reshape {α : Type} :
    (∀ t : Tensor α, t.shape.length = 2 →
      validateAndReshapeMMTensor (.tensor t) = .ok t) ∧
    (∀ (b n d : Nat) (data : List α), data.length = b * (n * d) → 0 < b →
      validateAndReshapeMMTensor (.tensor ⟨[b, n, d], data⟩)
        = .ok ⟨[b * n, d], data⟩) ∧
    (∀ t : Tensor α, t.shape.length ≠ 2 → t.shape.length ≠ 3 →
      validateAndReshapeMMTensor (.tensor t)
        = .error "input should be 2D or batched 3D tensor") ∧
    (∀ s, validateAndReshapeMMTensor (α := α) (.other s)
      = .error "incorrect type of multimodal input") ∧
    (∀ ts : List (Tensor α),
      validateAndReshapeMMTensor (.tlist ts) = torchConcatDim0 ts) := by
  refine ⟨?_, ?_, ?_, fun s => rfl, fun ts => rfl⟩
  · intro t h2
    rw [validateAndReshapeMMTensor, if_pos h2]
  · exact fun b n d data hlen hb => validate_3d_ok b n d data hlen hb
  · intro t h2 h3
    rw [validateAndReshapeMMTensor, if_neg h2, if_pos h3]

/-- C9, witness: a 2-D tensor passes through, a (2, 1, 2) tensor is
flattened to (2, 2) keeping its data, and a 1-D tensor is rejected. -/
theorem c9_validate_reshape_witness :
    validateAndReshapeMMTensor
        (.tensor ⟨[2, 3], ([1, 2, 3, 4, 5, 6] : List ℚ)⟩)
      = .ok ⟨[2, 3], [1, 2, 3, 4, 5, 6]⟩ ∧
    validateAndReshapeMMTensor (.tensor ⟨[2, 1, 2], ([7, 8, 9, 10] : List ℚ)⟩)
      = .ok ⟨[2 * 1, 2], [7, 8, 9, 10]⟩ ∧
    validateAndReshapeMMTensor (.tensor ⟨[4], ([1, 2, 3, 4] : List ℚ)⟩)
      = .error "input should be 2D or batched 3D tensor" :=
  ⟨c9_validate_reshape.1 _ rfl,
   c9_validate_reshape.2.1 2 1 2 _ rfl (by omega),
   c9_validate_reshape.2.2.1 _ (by decide) (by decide)⟩

/- ===================== Claims C2 and C10 ===================== -/

lemma maskedRowAssign_hit {α : Type} (pid tid : Nat) (ids : List Nat)
    (r f : α) (rows fs : List α) (hp : tid = pid) :
    maskedRowAssign pid (tid :: ids) (r :: rows) (f :: fs)
      = f :: maskedRowAssign pid ids rows fs := by
  rw [show maskedRowAssign pid (tid :: ids) (r :: rows) (f :: fs)
      = if tid = pid then f :: maskedRowAssign pid ids rows fs
        else r :: maskedRowAssign pid ids rows (f :: fs) from rfl, if_pos hp]

lemma maskedRowAssign_hit_nil {α : Type} (pid tid : Nat) (ids : List Nat)
    (r : α) (rows : List α) (hp : tid = pid) :
    maskedRowAssign pid (tid :: ids) (r :: rows) ([] : List α)
      = r :: maskedRowAssign pid ids rows [] := by
  rw [show maskedRowAssign pid (tid :: ids) (r :: rows) ([] : List α)
      = if tid = pid then r :: maskedRowAssign pid ids rows []
        else r :: maskedRowAssign pid ids rows [] from rfl, if_pos hp]

lemma maskedRowAssign_miss {α : Type} (pid tid : Nat) (ids : List Nat)
    (r : α) (rows feats : List α) (hp : ¬tid = pid) :
    maskedRowAssign pid (tid :: ids) (r :: rows) feats
      = r :: maskedRowAssign pid ids rows feats := by
  rw [show maskedRowAssign pid (tid :: ids) (r :: rows) feats
      = if tid = pid then
          (match feats with
            | f :: fs => f :: maskedRowAssign pid ids rows fs
            | [] => r :: maskedRowAssign pid ids rows [])
        else r :: maskedRowAssign pid ids rows feats from rfl, if_neg hp]

lemma placeholderRows_cons {α : Type} (tid : Nat) (ids : List Nat) (x : α)
    (xs : List α) (pid : Nat) :
    placeholderRows (tid :: ids) (x :: xs) pid
      = if tid = pid then x :: placeholderRows ids xs pid
        else placeholderRows ids xs pid := by
  by_cases hp : tid = pid <;>
    simp [placeholderRows, List.filterMap_cons, hp]

lemma countPlaceholders_cons (tid : Nat) (ids : List Nat) (pid : Nat) :
    countPlaceholders (tid :: ids) pid
      = (if tid = pid then 1 else 0) + countPlaceholders ids pid := by
  by_cases hp : tid = pid <;>
    simp [countPlaceholders, List.filter_cons, hp, Nat.add_comm]

lemma maskedRowAssign_placeholderRows {α : Type} (pid : Nat) (ids : List Nat)
    (rows feats : List α) (hlen : rows.length = ids.length)
    (hP : feats.length = countPlaceholders ids pid) :
    placeholderRows ids (maskedRowAssign pid ids rows feats) pid = feats := by
  induction ids generalizing rows feats with
  | nil =>
    obtain rfl : rows = [] := List.length_eq_zero.mp hlen
    obtain rfl : feats = [] := by
      rw [countPlaceholders] at hP
      simp only [List.filter_nil, List.length_nil] at hP
      exact List.length_eq_zero.mp hP
    rfl
  | cons tid ids ih =>
    rcases rows with _ | ⟨r, rows⟩
    · simp at hlen
    · have hlen' : rows.length = ids.length := by simpa using hlen
      rw [countPlaceholders_cons] at hP
      by_cases hp : tid = pid
      · rw [if_pos hp] at hP
        rcases feats with _ | ⟨f, fs⟩
        · exact absurd hP (by simp only [List.length_nil]; omega)
        · have hfs : fs.length = countPlaceholders ids pid := by
            simp only [List.length_cons] at hP
            omega
          rw [maskedRowAssign_hit pid tid ids r f rows fs hp]
          rw [placeholderRows_cons, if_pos hp, ih rows fs hlen' hfs]
      · rw [if_neg hp, Nat.zero_add] at hP
        rw [maskedRowAssign_miss pid tid ids r rows feats hp]
        rw [placeholderRows_cons, if_neg hp]
        exact ih rows feats hlen' hP

lemma maskedRowAssign_frame {α : Type} (pid : Nat) (ids : List Nat)
    (rows feats : List α) :
    ∀ (i : Nat) (tid : Nat), ids[i]? = some tid → tid ≠ pid →
      (maskedRowAssign pid ids rows feats)[i]? = rows[i]? := by
  induction ids generalizing rows feats with
  | nil =>
    intro i tid hid
    simp at hid
  | cons t0 ids ih =>
    intro i tid hid hne
    rcases rows with _ | ⟨r, rows⟩
    · rfl
    · by_cases hp : t0 = pid
      · rcases feats with _ | ⟨f, fs⟩
        · rw [maskedRowAssign_hit_nil pid t0 ids r rows hp]
          rcases i with _ | i
          · rw [List.getElem?_cons_zero, List.getElem?_cons_zero]
          · rw [List.getElem?_cons_succ, List.getElem?_cons_succ]
            exact ih rows [] i tid (by simpa using hid) hne
        · rw [maskedRowAssign_hit pid t0 ids r f rows fs hp]
          rcases i with _ | i
          · rw [List.getElem?_cons_zero] at hid
            injection hid with h
            exact absurd (by rw [← h]; exact hp) hne
          · rw [List.getElem?_cons_succ, List.getElem?_cons_succ]
            exact ih rows fs i tid (by simpa using hid) hne
      · rw [maskedRowAssign_miss pid t0 ids r rows feats hp]
        rcases i with _ | i
        · rw [List.getElem?_cons_zero, List.getElem?_cons_zero]
        · rw [List.getElem?_cons_succ, List.getElem?_cons_succ]
          exact ih rows feats i tid (by simpa using hid) hne

/-- C2, counterexample: with two placeholder occurrences (P = 2) and a
feature tensor of P - 1 = 1 row, the masked assignment does not raise: it
broadcasts the single row to both placeholder positions, exactly the
silent behavior the claim rules out. -/
theorem c2_embedding_fusion_counterexample :
    countPlaceholders [5, 5] 5 = 2 ∧
    mergeMultimodalEmbeddings [5, 5] ([10, 11] : List ℚ) [99] 5
      = .ok [99, 99] :=
  ⟨rfl, rfl⟩

/-- C2, amended: when the feature tensor has exactly P rows for P
placeholder occurrences, fusion succeeds and the rows at the placeholder
positions, in sequence order, are exactly the feature rows; any other
row count is a fatal shape-mismatch error except the single-row case:
one feature row with P different from 1 silently broadcasts to all P
placeholder positions (and is silently dropped when P = 0). -/
theorem c2_embedding_fusion {α : Type} :
    (∀ (ids : List Nat) (rows feats : List α) (pid : Nat),
      rows.length = ids.length →
      feats.length = countPlaceholders ids pid →
      ∃ out, mergeMultimodalEmbeddings ids rows feats pid = .ok out ∧
        placeholderRows ids out pid = feats) ∧
    (∀ (ids : List Nat) (rows feats : List α) (pid : Nat),
      feats.length ≠ countPlaceholders ids pid → feats.length ≠ 1 →
      mergeMultimodalEmbeddings ids rows feats pid
        = .error
          "shape mismatch: value tensor cannot be broadcast to indexing result") := by
  constructor
  · intro ids rows feats pid hlen hP
    refine ⟨maskedRowAssign pid ids rows feats, ?_,
      maskedRowAssign_placeholderRows pid ids rows feats hlen hP⟩
    rw [mergeMultimodalEmbeddings, if_pos hP]
  · intro ids rows feats pid hne h1
    rw [mergeMultimodalEmbeddings, if_neg hne]
    rcases feats with _ | ⟨f, _ | ⟨g, fs⟩⟩
    · rfl
    · exact absurd rfl h1
    · rfl

/-- C2, witness: exact-count fusion at one placeholder, and the fatal
error at three rows against two placeholders. -/
theorem c2_embedding_fusion_witness :
    (∃ out, mergeMultimodalEmbeddings [5, 7] ([1, 2] : List ℚ) [9] 5
        = .ok out ∧ placeholderRows [5, 7] out 5 = [9]) ∧
    mergeMultimodalEmbeddings [5, 5] ([1, 2] : List ℚ) [7, 8, 9] 5
      = .error
        "shape mismatch: value tensor cannot be broadcast to indexing result" :=
  ⟨c2_embedding_fusion.1 [5, 7] [1, 2] [9] 5 rfl rfl,
   c2_embedding_fusion.2 [5, 5] [1, 2] [7, 8, 9] 5 (by decide) (by decide)⟩

/-- C10: on the heap view, fusing with a feature tensor whose row count
equals the placeholder count returns the very address that was passed in
(the same tensor object, mutated in place, not a fresh copy), changes the
store at no other address, and inside the addressed matrix leaves every
row whose token id differs from the placeholder id unchanged. -/
theorem c10_fusion_frame {α : Type} (h : EmbedsHeap α) (ids : List Nat)
    (addr : Nat) (rows feats : List α) (pid : Nat)
    (haddr : h.store[addr]? = some rows)
    (hlen : rows.length = ids.length)
    (hP : feats.length = countPlaceholders ids pid) :
    ∃ out, mergeMultimodalEmbeddingsInPlace h ids addr feats pid
        = .ok (⟨h.store.set addr out⟩, addr) ∧
      (∀ a, a ≠ addr → (h.store.set addr out)[a]? = h.store[a]?) ∧
      (∀ (i tid : Nat), ids[i]? = some tid → tid ≠ pid →
        out[i]? = rows[i]?) := by
  refine ⟨maskedRowAssign pid ids rows feats, ?_, ?_, ?_⟩
  · rw [mergeMultimodalEmbeddingsInPlace, haddr, Option.elim_some,
      mergeMultimodalEmbeddings, if_pos hP]
    rfl
  · intro a ha
    exact List.getElem?_set_ne (by omega)
  · exact maskedRowAssign_frame pid ids rows feats

/-- C10, witness: a two-matrix heap, fusing into the matrix at address 0
with one placeholder, checked at the other address and the non-placeholder
row. -/
theorem c10_fusion_frame_witness :
    ∃ out, mergeMultimodalEmbeddingsInPlace
        (⟨[[1, 2], [3, 4]]⟩ : EmbedsHeap ℚ) [5, 7] 0 [9] 5
        = .ok (⟨([[1, 2], [3, 4]] : List (List ℚ)).set 0 out⟩, 0) ∧
      (∀ a, a ≠ 0 → (([[1, 2], [3, 4]] : List (List ℚ)).set 0 out)[a]?
        = ([[1, 2], [3, 4]] : List (List ℚ))[a]?) ∧
      (∀ (i tid : Nat), ([5, 7] : List Nat)[i]? = some tid → tid ≠ 5 →
        out[i]? = ([1, 2] : List ℚ)[i]?) :=
  c10_fusion_frame ⟨[[1, 2], [3, 4]]⟩ [5, 7] 0 [1, 2] [9] 5 rfl rfl rfl
